import Mathlib

/-!
Verification of the rate-limiting subsystem of this repository
(source: src/lib/rate-limit.ts).

The development shallowly embeds the in-memory sliding-window limiter
(`InMemoryRateLimiter.limit`), the limiter factory (`createRateLimiter`
with its duration parsing and environment check), and the client
identifier resolver (`getClientIp`).  Timestamps are epoch milliseconds,
modelled as `Int`; the identifier-to-timestamps map is modelled as a
total function from identifiers to timestamp lists, with absent keys
reading as the empty list (the source reads the map with
`this.requests.get(identifier) || []`, so the two are observationally
identical: the map is never iterated or deleted from).
-/

/-- The result object returned by one evaluation of a limiter:
`success`, `limit` (configured capacity), `remaining`, `reset`
(epoch milliseconds), exactly the object literal built by
`InMemoryRateLimiter.limit`. -/
structure Decision where
  success : Bool
  limit : Nat
  remaining : Int
  reset : Int
deriving DecidableEq

/-- The `requests` map of `InMemoryRateLimiter`: identifier to the
stored timestamp sequence; a key that was never written reads as `[]`. -/
def Store : Type := String → List Int

/-- The map state of a freshly constructed limiter (empty map). -/
def emptyStore : Store := fun _ => []

/-- Configuration of one `InMemoryRateLimiter` instance: the
`maxRequests` and `windowMs` fields set by its constructor. -/
structure InMemoryRateLimiter where
  maxRequests : Nat
  windowMs : Int
deriving DecidableEq

/-- Embedding of `Math.min(...list)` as used on the live set.  On the empty list the
source would produce `Infinity`; here the empty case returns a junk
value `0` — claim C9 shows the source only reaches this expression with
a non-empty list (capacity is at least 1), so the junk value is never
the one the program observes. -/
def mathMin : List Int → Int
  | [] => 0
  | x :: xs => xs.foldl min x

/-- One call of `InMemoryRateLimiter.limit(identifier)` at instant
`now` (the value `Date.now()` read at the top of the method): returns
the decision and the map state after the call.  Direct transcription of
src/lib/rate-limit.ts lines 15-47. -/
def InMemoryRateLimiter.limit (rl : InMemoryRateLimiter) (store : Store) (now : Int)
    (identifier : String) : Decision × Store :=
  let windowStart := now - rl.windowMs
  let timestamps := store identifier
  let recentRequests := timestamps.filter (fun time => decide (windowStart < time))
  if rl.maxRequests ≤ recentRequests.length then
    let oldestRequest := mathMin recentRequests
    let resetTime := oldestRequest + rl.windowMs
    (⟨false, rl.maxRequests, 0, resetTime⟩, store)
  else
    let newRequests := recentRequests ++ [now]
    (⟨true, rl.maxRequests, (rl.maxRequests : Int) - (newRequests.length : Int),
        now + rl.windowMs⟩,
      fun id => if id = identifier then newRequests else store id)

/-- The "live" set of an identifier at instant `now`: the stored
timestamps strictly greater than `now - windowMs` (the filter performed
by `limit`). -/
def liveSet (rl : InMemoryRateLimiter) (store : Store) (now : Int)
    (identifier : String) : List Int :=
  (store identifier).filter (fun time => decide (now - rl.windowMs < time))

/-- The reference `evaluate(identifier, capacity, windowDuration)`
operation, written from the words of spec section 4.2: filter the
stored sequence to the live set, reject without recording when the live
count reaches capacity (reset at the oldest live timestamp plus the
window), otherwise append `now`, persist, and report the remaining
quota with reset at `now` plus the window. -/
def evaluateSpec (capacity : Nat) (windowDuration : Int) (stored : List Int) (now : Int) :
    Decision × List Int :=
  let live := stored.filter (fun t => decide (now - windowDuration < t))
  if capacity ≤ live.length then
    (⟨false, capacity, 0, mathMin live + windowDuration⟩, stored)
  else
    let newLive := live ++ [now]
    (⟨true, capacity, (capacity : Int) - (newLive.length : Int), now + windowDuration⟩,
      newLive)

lemma foldl_min_le_init (a : Int) (xs : List Int) : xs.foldl min a ≤ a := by
  induction xs generalizing a with
  | nil => simp [List.foldl]
  | cons x xs ih =>
    exact le_trans (ih (min a x)) (min_le_left a x)

lemma foldl_min_le_mem (a : Int) (xs : List Int) : ∀ t ∈ xs, xs.foldl min a ≤ t := by
  induction xs generalizing a with
  | nil => intro t ht; simp at ht
  | cons x xs ih =>
    intro t ht
    rcases List.mem_cons.1 ht with rfl | ht
    · exact le_trans (foldl_min_le_init (min a t) xs) (min_le_right a t)
    · exact ih (min a x) t ht

lemma foldl_min_mem (a : Int) (xs : List Int) : xs.foldl min a = a ∨ xs.foldl min a ∈ xs := by
  induction xs generalizing a with
  | nil => left; rfl
  | cons x xs ih =>
    have hstep : (x :: xs).foldl min a = xs.foldl min (min a x) := rfl
    rcases ih (min a x) with h | h
    · rcases min_choice a x with hax | hax
      · left; rw [hstep, h, hax]
      · right; rw [hstep, h, hax]; exact List.mem_cons_self x xs
    · right; rw [hstep]; exact List.mem_cons_of_mem x h

lemma mathMin_mem (l : List Int) (h : l ≠ []) : mathMin l ∈ l := by
  cases l with
  | nil => exact absurd rfl h
  | cons x xs =>
    rcases foldl_min_mem x xs with h1 | h1
    · rw [mathMin, h1]; exact List.mem_cons_self x xs
    · rw [mathMin]; exact List.mem_cons_of_mem x h1

lemma mathMin_le (l : List Int) : ∀ t ∈ l, mathMin l ≤ t := by
  cases l with
  | nil => intro t ht; simp at ht
  | cons x xs =>
    intro t ht
    rcases List.mem_cons.1 ht with rfl | ht
    · exact foldl_min_le_init t xs
    · exact foldl_min_le_mem x xs t ht

/-- C1: one call to the local store's `limit(identifier)` behaves as the
section 4.2 reference definition: same decision, the identifier's
stored sequence is updated exactly as the reference `evaluate` updates
it (in particular rejected attempts are not recorded), and no other
identifier's entry changes. -/
theorem c1_limit_matches_reference (rl : InMemoryRateLimiter) (s : Store) (now : Int)
    (id : String) :
    (rl.limit s now id).1 = (evaluateSpec rl.maxRequests rl.windowMs (s id) now).1 ∧
    (rl.limit s now id).2 id = (evaluateSpec rl.maxRequests rl.windowMs (s id) now).2 ∧
    ∀ j, j ≠ id → (rl.limit s now id).2 j = s j := by
  unfold InMemoryRateLimiter.limit evaluateSpec
  by_cases h :
      rl.maxRequests ≤ ((s id).filter (fun time => decide (now - rl.windowMs < time))).length
  · simp only [h, if_true]
    exact ⟨trivial, trivial, fun j hj => trivial⟩
  · simp only [h, if_false]
    refine ⟨trivial, by simp, fun j hj => by simp [hj]⟩

/-- C10: a rejected evaluation (`success = false`) leaves the whole
identifier-to-timestamps map exactly as it was: the entry is not
written back at all, so whatever was stored (stale timestamps included)
remains stored. -/
theorem c10_reject_leaves_map_unchanged (rl : InMemoryRateLimiter) (s : Store) (now : Int)
    (id : String) (h : (rl.limit s now id).1.success = false) :
    (rl.limit s now id).2 = s := by
  unfold InMemoryRateLimiter.limit at *
  by_cases hc :
      rl.maxRequests ≤ ((s id).filter (fun time => decide (now - rl.windowMs < time))).length
  · simp only [hc, if_true]
  · simp only [hc, if_false] at h
    exact absurd h (by simp)

/-- Witness for C10 at a concrete rejected call: capacity 1, window 10,
identifier "u" already holding timestamp 0, evaluated at instant 5. -/
theorem c10_witness :
    ((InMemoryRateLimiter.mk 1 10).limit (fun j => if j = "u" then [0] else []) 5 "u").1.success
        = false ∧
    ((InMemoryRateLimiter.mk 1 10).limit (fun j => if j = "u" then [0] else []) 5 "u").2
        = fun j => if j = "u" then [0] else [] :=
  ⟨by decide, c10_reject_leaves_map_unchanged (InMemoryRateLimiter.mk 1 10)
    (fun j => if j = "u" then [0] else []) 5 "u" (by decide)⟩

/-- C9: the local `limit` operation is a total function (in this
embedding every call returns a decision), its `remaining` field is never
negative, and the only branch that takes a minimum — the rejection
branch — is reached only with a non-empty live set whenever the
configured capacity is at least 1, so `Math.min` is applied to a
non-empty list and `mathMin` there is a genuine least element. -/
theorem c9_limit_total_and_min_welldefined (rl : InMemoryRateLimiter) (s : Store) (now : Int)
    (id : String) (hcap : 1 ≤ rl.maxRequests) :
    (0 ≤ (rl.limit s now id).1.remaining ∧ (rl.limit s now id).1.limit = rl.maxRequests) ∧
    ((rl.limit s now id).1.success = false →
      liveSet rl s now id ≠ [] ∧
      mathMin (liveSet rl s now id) ∈ liveSet rl s now id ∧
      ∀ t ∈ liveSet rl s now id, mathMin (liveSet rl s now id) ≤ t) := by
  unfold InMemoryRateLimiter.limit
  by_cases hc :
      rl.maxRequests ≤ ((s id).filter (fun time => decide (now - rl.windowMs < time))).length
  · simp only [hc, if_true]
    have hne : liveSet rl s now id ≠ [] := by
      unfold liveSet
      intro hnil
      rw [hnil] at hc
      simp at hc
      omega
    exact ⟨⟨le_refl 0, trivial⟩, fun _ => ⟨hne, mathMin_mem _ hne, mathMin_le _⟩⟩
  · simp only [hc, if_false]
    refine ⟨⟨?_, trivial⟩, fun h => absurd h (by simp)⟩
    have hlen : ((s id).filter (fun time => decide (now - rl.windowMs < time))).length
        < rl.maxRequests := Nat.lt_of_not_le hc
    simp only [List.length_append, List.length_cons, List.length_nil]
    omega

/-- Witness for C9 at a concrete rejected call: capacity 1, window 10,
identifier "u" holding timestamp 0, evaluated at instant 5; the live
set is [0] and its minimum 0 belongs to it. -/
theorem c9_witness :
    (1 ≤ 1) ∧
    ((0 : Int) ≤ ((InMemoryRateLimiter.mk 1 10).limit
        (fun j => if j = "u" then [0] else []) 5 "u").1.remaining ∧
      ((InMemoryRateLimiter.mk 1 10).limit
        (fun j => if j = "u" then [0] else []) 5 "u").1.limit = 1) :=
  ⟨le_refl 1,
    (c9_limit_total_and_min_welldefined (InMemoryRateLimiter.mk 1 10)
      (fun j => if j = "u" then [0] else []) 5 "u" (le_refl 1)).1⟩

/-- C3 fails on the code: with capacity 2 and window 10, a call at
instant 0 followed by a successful call at instant 5 finds the live
entry 0 (the oldest, expiring at instant 10) still stored, yet the
returned `reset` is 15 = now + window, not 10. -/
theorem c3_counterexample :
    (((InMemoryRateLimiter.mk 2 10).limit emptyStore 0 "u").2 "u").filter
        (fun time => decide ((5 : Int) - 10 < time)) = [0] ∧
    ((InMemoryRateLimiter.mk 2 10).limit
        ((InMemoryRateLimiter.mk 2 10).limit emptyStore 0 "u").2 5 "u").1.success = true ∧
    ((InMemoryRateLimiter.mk 2 10).limit
        ((InMemoryRateLimiter.mk 2 10).limit emptyStore 0 "u").2 5 "u").1.reset = 15 ∧
    mathMin [0] + 10 = (10 : Int) ∧ (15 : Int) ≠ 10 := by decide

/-- C3 as amended: the `reset` of a decision is `now + windowMs` on
every successful evaluation — even when older live entries exist — and
equals the oldest live timestamp plus `windowMs` on every rejected
evaluation (where, for capacity at least 1, the live set is non-empty
and `mathMin` of it is its least element). -/
theorem c3_amended_reset (rl : InMemoryRateLimiter) (s : Store) (now : Int) (id : String)
    (hcap : 1 ≤ rl.maxRequests) :
    ((rl.limit s now id).1.success = true → (rl.limit s now id).1.reset = now + rl.windowMs) ∧
    ((rl.limit s now id).1.success = false →
      liveSet rl s now id ≠ [] ∧
      (rl.limit s now id).1.reset = mathMin (liveSet rl s now id) + rl.windowMs ∧
      mathMin (liveSet rl s now id) ∈ liveSet rl s now id ∧
      ∀ t ∈ liveSet rl s now id, mathMin (liveSet rl s now id) ≤ t) := by
  unfold InMemoryRateLimiter.limit
  by_cases hc :
      rl.maxRequests ≤ ((s id).filter (fun time => decide (now - rl.windowMs < time))).length
  · simp only [hc, if_true]
    have hne : liveSet rl s now id ≠ [] := by
      unfold liveSet
      intro hnil
      rw [hnil] at hc
      simp at hc
      omega
    refine ⟨fun h => absurd h (by simp), fun _ => ⟨hne, rfl, mathMin_mem _ hne, mathMin_le _⟩⟩
  · simp only [hc, if_false]
    exact ⟨fun _ => trivial, fun h => absurd h (by simp)⟩

/-- Witness for the amended C3: capacity 1, window 10, identifier "u"
holding timestamp 0, rejected at instant 5: the reset is the oldest
live timestamp 0 plus the window. -/
theorem c3_amended_witness :
    (1 ≤ 1) ∧
    ((InMemoryRateLimiter.mk 1 10).limit (fun j => if j = "u" then [0] else [])
        5 "u").1.reset =
      mathMin (liveSet (InMemoryRateLimiter.mk 1 10)
        (fun j => if j = "u" then [0] else []) 5 "u") + 10 :=
  ⟨le_refl 1,
    ((c3_amended_reset (InMemoryRateLimiter.mk 1 10)
      (fun j => if j = "u" then [0] else []) 5 "u" (le_refl 1)).2 (by decide)).2.1⟩

/-- Junk decision used as the `getD` default when indexing decision
lists; the theorems only index within bounds. -/
def d0 : Decision := ⟨false, 0, 0, 0⟩

/-- A sequence of `limit` calls for one identifier, one call per listed
instant, threading the map state. -/
def runCalls (rl : InMemoryRateLimiter) (id : String) : List Int → Store → List Decision × Store
  | [], s => ([], s)
  | t :: ts, s =>
    let r := rl.limit s t id
    let rest := runCalls rl id ts r.2
    (r.1 :: rest.1, rest.2)

lemma filter_all_true (p : Int → Bool) :
    ∀ l : List Int, (∀ a ∈ l, p a = true) → l.filter p = l := by
  intro l h
  induction l with
  | nil => rfl
  | cons x xs ih =>
    have hx := h x (List.mem_cons_self x xs)
    simp [List.filter_cons, hx, ih (fun a ha => h a (List.mem_cons_of_mem x ha))]

lemma headD_append (P l : List Int) (d : Int) (h : P ≠ []) : (P ++ l).headD d = P.headD d := by
  cases P with
  | nil => exact absurd rfl h
  | cons x xs => rfl

lemma mathMin_sorted_head (x : Int) (xs : List Int)
    (h : (x :: xs).Pairwise (fun a b => a ≤ b)) : mathMin (x :: xs) = x := by
  apply le_antisymm
  · exact foldl_min_le_init x xs
  · have hmem := mathMin_mem (x :: xs) (by simp)
    rcases List.mem_cons.1 hmem with h1 | h1
    · exact le_of_eq h1.symm
    · exact (List.pairwise_cons.1 h).1 _ h1

lemma runCalls_window_general (rl : InMemoryRateLimiter) (id : String)
    (hcap : 1 ≤ rl.maxRequests) :
    ∀ (times : List Int) (s : Store) (P : List Int),
      s id = P →
      P.Pairwise (fun a b => a ≤ b) →
      P.length ≤ rl.maxRequests →
      (∀ p ∈ P, ∀ t ∈ times, p ≤ t) →
      times.Pairwise (fun a b => a ≤ b) →
      (∀ t ∈ times, ∀ p ∈ P, t - rl.windowMs < p) →
      (∀ t ∈ times, ∀ u ∈ times, t - rl.windowMs < u) →
      ∀ i, i < times.length →
        (P.length + i < rl.maxRequests →
          (runCalls rl id times s).1.getD i d0 =
            ⟨true, rl.maxRequests,
              (rl.maxRequests : Int) - ((P.length : Int) + (i : Int) + 1),
              times.getD i 0 + rl.windowMs⟩) ∧
        (rl.maxRequests ≤ P.length + i →
          (runCalls rl id times s).1.getD i d0 =
            ⟨false, rl.maxRequests, 0, (P ++ times).headD 0 + rl.windowMs⟩) := by
  intro times
  induction times with
  | nil =>
    intro s P hs hPsort hPlen hPT hTsort hPlive hTlive i hi
    simp at hi
  | cons t ts ih =>
    intro s P hs hPsort hPlen hPT hTsort hPlive hTlive i hi
    have hfilt : P.filter (fun time => decide (t - rl.windowMs < time)) = P := by
      apply filter_all_true
      intro a ha
      exact decide_eq_true (hPlive t (List.mem_cons_self t ts) a ha)
    by_cases hc : rl.maxRequests ≤ P.length
    · have hPne : P ≠ [] := by
        intro hnil
        rw [hnil] at hc
        simp at hc
        omega
      have hlim : rl.limit s t id =
          (⟨false, rl.maxRequests, 0, mathMin P + rl.windowMs⟩, s) := by
        simp only [InMemoryRateLimiter.limit, hs, hfilt, hc, if_true]
      have hmin : mathMin P = P.headD 0 := by
        cases P with
        | nil => exact absurd rfl hPne
        | cons x xs => rw [mathMin_sorted_head x xs hPsort]; rfl
      cases i with
      | zero =>
        refine ⟨fun hlt => absurd hlt (by omega), fun _ => ?_⟩
        simp only [runCalls, hlim, List.getD_cons_zero]
        rw [headD_append P (t :: ts) 0 hPne, ← hmin]
      | succ j =>
        have hj : j < ts.length := by
          simp only [List.length_cons] at hi
          omega
        have hrec := ih s P hs hPsort hPlen
            (fun p hp u hu => hPT p hp u (List.mem_cons_of_mem t hu))
            ((List.pairwise_cons.1 hTsort).2)
            (fun u hu p hp => hPlive u (List.mem_cons_of_mem t hu) p hp)
            (fun u hu v hv => hTlive u (List.mem_cons_of_mem t hu) v (List.mem_cons_of_mem t hv))
            j hj
        refine ⟨fun hlt => absurd hlt (by omega), fun _ => ?_⟩
        simp only [runCalls, hlim, List.getD_cons_succ]
        rw [hrec.2 (by omega)]
        rw [headD_append P ts 0 hPne, headD_append P (t :: ts) 0 hPne]
    · have hc' : P.length < rl.maxRequests := Nat.lt_of_not_le hc
      have hlim : rl.limit s t id =
          (⟨true, rl.maxRequests, (rl.maxRequests : Int) - ((P.length : Int) + 1),
              t + rl.windowMs⟩,
            fun k => if k = id then P ++ [t] else s k) := by
        simp only [InMemoryRateLimiter.limit, hs, hfilt, hc, if_false]
        simp [List.length_append]
      cases i with
      | zero =>
        refine ⟨fun _ => ?_, fun hge => absurd hge (by omega)⟩
        simp only [runCalls, hlim, List.getD_cons_zero]
        simp
      | succ j =>
        have hj : j < ts.length := by
          simp only [List.length_cons] at hi
          omega
        have hs' : (fun k => if k = id then P ++ [t] else s k) id = P ++ [t] := by simp
        have hsort' : (P ++ [t]).Pairwise (fun a b => a ≤ b) := by
          rw [List.pairwise_append]
          refine ⟨hPsort, List.pairwise_singleton _ _, ?_⟩
          intro p hp u hu
          rw [List.mem_singleton] at hu
          rw [hu]
          exact hPT p hp t (List.mem_cons_self t ts)
        have hlen' : (P ++ [t]).length ≤ rl.maxRequests := by
          simp only [List.length_append, List.length_cons, List.length_nil]
          omega
        have hPT' : ∀ p ∈ P ++ [t], ∀ u ∈ ts, p ≤ u := by
          intro p hp u hu
          rcases List.mem_append.1 hp with hp | hp
          · exact hPT p hp u (List.mem_cons_of_mem t hu)
          · rw [List.mem_singleton] at hp
            rw [hp]
            exact (List.pairwise_cons.1 hTsort).1 u hu
        have hPlive' : ∀ u ∈ ts, ∀ p ∈ P ++ [t], u - rl.windowMs < p := by
          intro u hu p hp
          rcases List.mem_append.1 hp with hp | hp
          · exact hPlive u (List.mem_cons_of_mem t hu) p hp
          · rw [List.mem_singleton] at hp
            rw [hp]
            exact hTlive u (List.mem_cons_of_mem t hu) t (List.mem_cons_self t ts)
        have hrec := ih (fun k => if k = id then P ++ [t] else s k) (P ++ [t]) hs' hsort' hlen'
            hPT' ((List.pairwise_cons.1 hTsort).2) hPlive'
            (fun u hu v hv => hTlive u (List.mem_cons_of_mem t hu) v (List.mem_cons_of_mem t hv))
            j hj
        constructor
        · intro hlt
          simp only [runCalls, hlim, List.getD_cons_succ]
          rw [hrec.1 (by simp only [List.length_append, List.length_cons, List.length_nil]; omega)]
          simp only [Decision.mk.injEq, List.length_append, List.length_cons, List.length_nil,
            List.getD_cons_succ, true_and, and_true]
          push_cast
          ring
        · intro hge
          simp only [runCalls, hlim, List.getD_cons_succ]
          rw [hrec.2 (by simp only [List.length_append, List.length_cons, List.length_nil]; omega)]
          rw [List.append_assoc, List.singleton_append]

/-- C2: starting from an empty map, for capacity N over window W and
one identifier, in any nondecreasing sequence of call instants that all
lie within one W-length interval (formalised: any two instants are less
than W apart in the strict sense the filter uses), the i-th call for
i < N succeeds with remaining N - (i+1) — that is N-1, N-2, ..., 0 in
order — and every call from the N-th on is rejected with remaining 0 and
reset equal to the first instant plus W. -/
theorem c2_window_boundary (N : Nat) (W : Int) (id : String) (times : List Int)
    (hN : 1 ≤ N) (hsorted : times.Pairwise (fun a b => a ≤ b))
    (hwin : ∀ t ∈ times, ∀ u ∈ times, t - W < u) :
    ∀ i, i < times.length →
      (i < N → (runCalls ⟨N, W⟩ id times emptyStore).1.getD i d0 =
        ⟨true, N, (N : Int) - ((i : Int) + 1), times.getD i 0 + W⟩) ∧
      (N ≤ i → (runCalls ⟨N, W⟩ id times emptyStore).1.getD i d0 =
        ⟨false, N, 0, times.headD 0 + W⟩) := by
  intro i hi
  have h := runCalls_window_general ⟨N, W⟩ id hN times emptyStore [] rfl
      List.Pairwise.nil (by simp) (by simp) hsorted (by simp) hwin i hi
  constructor
  · intro hlt
    have h1 := h.1 (by simpa using hlt)
    simpa using h1
  · intro hge
    have h2 := h.2 (by simpa using hge)
    simpa using h2

/-- Witness for C2: the concrete scenario of the spec (capacity 3,
window 60000 ms, identifier "u1", four calls within one second): the
fourth call is rejected with remaining 0 and reset = first instant + W. -/
theorem c2_witness :
    (1 ≤ 3) ∧
    (runCalls ⟨3, 60000⟩ "u1" [0, 300, 600, 900] emptyStore).1.getD 3 d0 =
      ⟨false, 3, 0, List.headD [0, 300, 600, 900] 0 + 60000⟩ :=
  ⟨by omega,
    (c2_window_boundary 3 60000 "u1" [0, 300, 600, 900] (by omega) (by decide) (by decide)
      3 (by decide)).2 (by omega)⟩

/-- States of one `InMemoryRateLimiter` instance: the map starts empty
when the instance is constructed and evolves only through `limit`
calls, whose instants (`Date.now()` readings) are nondecreasing.  The
`Int` component is the instant of the latest event. -/
inductive Reached (rl : InMemoryRateLimiter) : Store → Int → Prop where
  | start : ∀ t : Int, Reached rl emptyStore t
  | step : ∀ (s : Store) (t now : Int) (id : String),
      Reached rl s t → t ≤ now → Reached rl (rl.limit s now id).2 now

lemma all_true_of_length_le (p : Int → Bool) :
    ∀ l : List Int, l.length ≤ (l.filter p).length → ∀ x ∈ l, p x = true := by
  intro l
  induction l with
  | nil => intro h x hx; simp at hx
  | cons a as ih =>
    intro h x hx
    by_cases hpa : p a = true
    · rcases List.mem_cons.1 hx with rfl | hx'
      · exact hpa
      · refine ih ?_ x hx'
        rw [List.filter_cons_of_pos hpa] at h
        simp only [List.length_cons] at h
        omega
    · exfalso
      have hfle := List.length_filter_le p as
      rw [List.filter_cons_of_neg (by simpa using hpa)] at h
      simp only [List.length_cons] at h
      omega

lemma reached_invariant (rl : InMemoryRateLimiter) :
    ∀ (s : Store) (t : Int), Reached rl s t →
      ∀ id, (s id).length ≤ rl.maxRequests ∧ ∀ x ∈ s id, x ≤ t := by
  intro s t h
  induction h with
  | start t =>
    intro id
    exact ⟨Nat.zero_le _, fun x hx => absurd hx (List.not_mem_nil x)⟩
  | step s t now id hr hle ih =>
    intro j
    unfold InMemoryRateLimiter.limit
    by_cases hc : rl.maxRequests ≤
        ((s id).filter (fun time => decide (now - rl.windowMs < time))).length
    · simp only [hc, if_true]
      exact ⟨(ih j).1, fun x hx => le_trans ((ih j).2 x hx) hle⟩
    · simp only [hc, if_false]
      by_cases hj : j = id
      · subst hj
        constructor
        · have hlt := Nat.lt_of_not_le hc
          simp only [eq_self_iff_true, if_true, List.length_append, List.length_cons,
            List.length_nil]
          omega
        · intro x hx
          simp at hx
          rcases hx with hx | hx
          · exact le_trans ((ih j).2 x hx.1) hle
          · rw [hx]
      · constructor
        · simpa [hj] using (ih j).1
        · intro x hx
          simp [hj] at hx
          exact le_trans ((ih j).2 x hx) hle

/-- C4: for any state the running store can actually be in (reachable
from the empty map through `limit` calls at nondecreasing instants),
immediately after an evaluation of an identifier at instant `now` —
whether it succeeded or was rejected — every timestamp stored under
that identifier lies in the closed interval [now - windowMs, now].  On
a successful call this holds because the purged live set plus `now` is
written back; on a rejected call nothing is written, but in a reachable
state the stored list has at most `maxRequests` entries, so a rejection
forces every stored entry to be live already. -/
theorem c4_post_evaluation_window (rl : InMemoryRateLimiter) (s : Store) (t now : Int)
    (id : String) (hreach : Reached rl s t) (ht : t ≤ now) (hW : 0 ≤ rl.windowMs) :
    ∀ x ∈ (rl.limit s now id).2 id, now - rl.windowMs ≤ x ∧ x ≤ now := by
  have hinv := reached_invariant rl s t hreach
  unfold InMemoryRateLimiter.limit
  by_cases hc : rl.maxRequests ≤
      ((s id).filter (fun time => decide (now - rl.windowMs < time))).length
  · simp only [hc, if_true]
    intro x hx
    have hlen2 : (s id).length ≤ rl.maxRequests := (hinv id).1
    have hall := all_true_of_length_le (fun time => decide (now - rl.windowMs < time))
        (s id) (le_trans hlen2 hc) x hx
    have hlive : now - rl.windowMs < x := of_decide_eq_true hall
    exact ⟨le_of_lt hlive, le_trans ((hinv id).2 x hx) ht⟩
  · simp only [hc, if_false]
    intro x hx
    simp at hx
    rcases hx with hx | hx
    · exact ⟨le_of_lt hx.2, le_trans ((hinv id).2 x hx.1) ht⟩
    · rw [hx]
      exact ⟨by omega, le_refl now⟩

/-- Witness for C4: the empty store is reachable at instant 0, and the
evaluation of "u" at instant 5 with capacity 2 and window 10 stores
timestamp 5, which lies in [5 - 10, 5]. -/
theorem c4_witness :
    ((0 : Int) ≤ 5 ∧ (0 : Int) ≤ 10) ∧ ((5 : Int) - 10 ≤ 5 ∧ (5 : Int) ≤ 5) :=
  ⟨⟨by omega, by omega⟩,
    c4_post_evaluation_window (InMemoryRateLimiter.mk 2 10) emptyStore 0 5 "u"
      (Reached.start 0) (by omega) (by decide) 5 (by decide)⟩

/-- JS truthiness of an optional string value (`process.env.X`,
`headers.get(...)`): truthy exactly when it is a string and non-empty. -/
def truthy : Option String → Bool
  | none => false
  | some s => !(decide (s = ""))

/-- JS `String.prototype.endsWith`, over the character lists. -/
def jsEndsWith (s suffix : String) : Bool :=
  List.isSuffixOf suffix.data s.data

/-- Value of a non-empty ASCII digit run, as accumulated by `parseInt`. -/
def digitsVal (cs : List Char) : Nat :=
  cs.foldl (fun n c => 10 * n + (c.toNat - 48)) 0

/-- JS `parseInt(str)` in base 10: skip leading whitespace, read an
optional sign and then a maximal digit run; `none` models `NaN` (no
digits found). -/
def parseIntJS (s : String) : Option Int :=
  let cs := s.data.dropWhile (fun c => c == ' ' || c == '\t' || c == '\n' || c == '\r')
  match cs with
  | '-' :: rest =>
    let ds := rest.takeWhile (fun c => c.isDigit)
    if ds.isEmpty then none else some (-(digitsVal ds : Int))
  | '+' :: rest =>
    let ds := rest.takeWhile (fun c => c.isDigit)
    if ds.isEmpty then none else some ((digitsVal ds : Int))
  | _ =>
    let ds := cs.takeWhile (fun c => c.isDigit)
    if ds.isEmpty then none else some ((digitsVal ds : Int))

/-- The four duration units of the remote client's duration strings. -/
inductive DurUnit where
  | s
  | m
  | h
  | d
deriving DecidableEq

/-- The duration string built for the remote backend from `windowStr`
(src/lib/rate-limit.ts lines 55-65): `parseInt` of the string paired
with the unit chosen by the suffix checks, in source order
(`m`, `h`, `d`, otherwise seconds). -/
def remoteDuration (windowStr : String) : Option Int × DurUnit :=
  if jsEndsWith windowStr "m" then (parseIntJS windowStr, DurUnit.m)
  else if jsEndsWith windowStr "h" then (parseIntJS windowStr, DurUnit.h)
  else if jsEndsWith windowStr "d" then (parseIntJS windowStr, DurUnit.d)
  else (parseIntJS windowStr, DurUnit.s)

/-- The `windowMs` computed for the in-memory fallback
(src/lib/rate-limit.ts lines 76-80): seconds when the string ends in
"s", minutes when it ends in "m", otherwise hours.  `none` models the
`NaN` that `parseInt` of a digit-free string would propagate. -/
def localWindowMs (windowStr : String) : Option Int :=
  if jsEndsWith windowStr "s" then (parseIntJS windowStr).map (fun n => n * 1000)
  else if jsEndsWith windowStr "m" then (parseIntJS windowStr).map (fun n => n * 60 * 1000)
  else (parseIntJS windowStr).map (fun n => n * 60 * 60 * 1000)

/-- The two environment variables read by `createRateLimiter`. -/
structure Env where
  UPSTASH_REDIS_REST_URL : Option String
  UPSTASH_REDIS_REST_TOKEN : Option String

/-- The value returned by `createRateLimiter`: either the remote client
(carrying the request count, the parsed duration, the fact that the
sliding-window limiter was requested, and the analytics flag — the
source passes `limiter: Ratelimit.slidingWindow(requests, duration)`
and `analytics: true`) or the in-memory limiter with its computed
`windowMs`.  The constructed value holds no reference to the
environment, so later evaluations cannot re-check it. -/
inductive Backend where
  | remote (requests : Nat) (duration : Option Int × DurUnit) (sliding : Bool) (analytics : Bool)
  | localMem (maxRequests : Nat) (windowMs : Option Int)
deriving DecidableEq

/-- Evaluation of `createRateLimiter(requests, window)` against an
environment: the remote client is chosen exactly when both environment
variables are truthy (set and non-empty), once, at construction. -/
def createRateLimiter (requests : Nat) (windowStr : String) (env : Env) : Backend :=
  if truthy env.UPSTASH_REDIS_REST_URL && truthy env.UPSTASH_REDIS_REST_TOKEN then
    Backend.remote requests (remoteDuration windowStr) true true
  else
    Backend.localMem requests (localWindowMs windowStr)

/-- Auth endpoints policy: 5 requests per "15 m". -/
def authRateLimit (env : Env) : Backend := createRateLimiter 5 "15 m" env

/-- Profile updates policy: 10 requests per "1 m". -/
def profileRateLimit (env : Env) : Backend := createRateLimiter 10 "1 m" env

/-- Password reset policy: 3 requests per "1 h". -/
def passwordResetRateLimit (env : Env) : Backend := createRateLimiter 3 "1 h" env

/-- C5 fails on the code: for the unit-less window string "15" the
remote translation yields 15 seconds, while the local fallback computes
windowMs = 15 * 60 * 60 * 1000 = 54000000 ms (hours), which is not the
seconds interpretation 15 * 1000 ms: the two defaults differ. -/
theorem c5_counterexample :
    remoteDuration "15" = (some 15, DurUnit.s) ∧
    localWindowMs "15" = some 54000000 ∧
    (54000000 : Int) ≠ 15 * 1000 := by decide

/-- C5 as amended: for every window string whose suffix is none of the
recognized unit letters "s", "m", "h", "d" (a unit-less string such as
"15" included), the remote translation interprets the magnitude in
seconds, while the local-backend fallback computes windowMs in hours
(magnitude times 3600000 ms).  The two defaults are not the same. -/
theorem c5_amended_default_units (w : String)
    (hsuf : jsEndsWith w "s" = false) (hm : jsEndsWith w "m" = false)
    (hh : jsEndsWith w "h" = false) (hd : jsEndsWith w "d" = false) :
    (remoteDuration w).2 = DurUnit.s ∧
    localWindowMs w = (parseIntJS w).map (fun n => n * 60 * 60 * 1000) := by
  refine ⟨?_, ?_⟩
  · simp [remoteDuration, hm, hh, hd]
  · simp [localWindowMs, hsuf, hm]

/-- Witness for the amended C5 at the unit-less string "15". -/
theorem c5_amended_witness :
    (jsEndsWith "15" "s" = false ∧ jsEndsWith "15" "m" = false ∧
      jsEndsWith "15" "h" = false ∧ jsEndsWith "15" "d" = false) ∧
    ((remoteDuration "15").2 = DurUnit.s ∧
      localWindowMs "15" = (parseIntJS "15").map (fun n => n * 60 * 60 * 1000)) :=
  ⟨by decide,
    c5_amended_default_units "15" (by decide) (by decide) (by decide) (by decide)⟩

/-- C6 fails on the code as stated: with the endpoint URL present in
the environment as the empty string and the access token present as
"tok", both connection values are present, so the claim requires the
remote backend — but the code's truthiness test (`process.env.X &&
...`) treats the empty URL as unset and binds the in-memory store,
which is not the remote backend. -/
theorem c6_counterexample :
    (Env.mk (some "") (some "tok")).UPSTASH_REDIS_REST_URL = some "" ∧
    (Env.mk (some "") (some "tok")).UPSTASH_REDIS_REST_TOKEN = some "tok" ∧
    createRateLimiter 5 "15 m" (Env.mk (some "") (some "tok")) =
      Backend.localMem 5 (localWindowMs "15 m") ∧
    Backend.localMem 5 (localWindowMs "15 m") ≠
      Backend.remote 5 (remoteDuration "15 m") true true := by decide

/-- C6 as amended: `createRateLimiter` binds the remote backend —
sliding-window limiter, analytics enabled — exactly when both the
endpoint URL and the access token are present in the environment with
non-empty values (the source's truthiness test), and binds the
in-memory store otherwise.  The choice is a pure function of the
environment at construction; the returned `Backend` value carries no
environment reference, so the instance never re-checks it. -/
theorem c6_backend_selection (req : Nat) (w : String) (env : Env) :
    (createRateLimiter req w env = Backend.remote req (remoteDuration w) true true ↔
      (truthy env.UPSTASH_REDIS_REST_URL = true ∧
        truthy env.UPSTASH_REDIS_REST_TOKEN = true)) ∧
    (¬(truthy env.UPSTASH_REDIS_REST_URL = true ∧
        truthy env.UPSTASH_REDIS_REST_TOKEN = true) →
      createRateLimiter req w env = Backend.localMem req (localWindowMs w)) := by
  unfold createRateLimiter
  by_cases hu : truthy env.UPSTASH_REDIS_REST_URL = true
  · by_cases htk : truthy env.UPSTASH_REDIS_REST_TOKEN = true
    · simp [hu, htk]
    · simp [hu, htk]
  · simp [hu]

/-- Witness for the amended C6: with no URL configured the local
backend is bound. -/
theorem c6_witness :
    (¬(truthy (Env.mk none (some "tok")).UPSTASH_REDIS_REST_URL = true ∧
        truthy (Env.mk none (some "tok")).UPSTASH_REDIS_REST_TOKEN = true)) ∧
    createRateLimiter 5 "15 m" (Env.mk none (some "tok")) =
      Backend.localMem 5 (localWindowMs "15 m") :=
  ⟨by decide, (c6_backend_selection 5 "15 m" (Env.mk none (some "tok"))).2 (by decide)⟩

/-- JS whitespace test used by `trim`. -/
def isJsSpace (c : Char) : Bool :=
  c == ' ' || c == '\t' || c == '\n' || c == '\r'

/-- JS `String.prototype.trim` over the character list: drop whitespace
from both ends. -/
def trimChars (cs : List Char) : List Char :=
  ((cs.dropWhile isJsSpace).reverse.dropWhile isJsSpace).reverse

/-- Embedding of `s.split(",")[0].trim()`: the characters before the first comma
(the whole string when there is none), trimmed. -/
def firstTokenTrimmed (s : String) : String :=
  String.mk (trimChars (s.data.takeWhile (fun c => c != ',')))

/-- The two headers `getClientIp` reads from the request:
`x-forwarded-for` and `x-real-ip`; `none` when absent. -/
structure ReqHeaders where
  xForwardedFor : Option String
  xRealIp : Option String

/-- Embedding of `getClientIp(request)` (src/lib/rate-limit.ts lines 95-108): first
comma token of `x-forwarded-for`, trimmed, when that header is truthy;
else `x-real-ip` verbatim when truthy; else "unknown". -/
def getClientIp (request : ReqHeaders) : String :=
  if truthy request.xForwardedFor then firstTokenTrimmed (request.xForwardedFor.getD "")
  else if truthy request.xRealIp then request.xRealIp.getD ""
  else "unknown"

/-- C7 fails on the code: when the forwarded-address header is present
with the empty-string value, the claim requires the first
comma-separated token of it, trimmed — the empty string — but the code
skips the falsy header and returns "unknown". -/
theorem c7_counterexample :
    getClientIp (ReqHeaders.mk (some "") none) = "unknown" ∧
    firstTokenTrimmed "" = "" ∧
    ("unknown" : String) ≠ "" := by decide

/-- C7 as amended: the resolver returns the first comma-separated token
of the forwarded-address header, trimmed, when that header is present
with a non-empty value (the code tests JS truthiness); else the
direct-address header verbatim when present and non-empty; else the
literal "unknown" — and it is a total function into strings. -/
theorem c7_amended_resolver (r : ReqHeaders) :
    (∀ f : String, r.xForwardedFor = some f → f ≠ "" →
      getClientIp r = firstTokenTrimmed f) ∧
    ((r.xForwardedFor = none ∨ r.xForwardedFor = some "") →
      ∀ ip : String, r.xRealIp = some ip → ip ≠ "" → getClientIp r = ip) ∧
    ((r.xForwardedFor = none ∨ r.xForwardedFor = some "") →
      (r.xRealIp = none ∨ r.xRealIp = some "") → getClientIp r = "unknown") := by
  unfold getClientIp
  refine ⟨?_, ?_, ?_⟩
  · intro f hf hne
    simp [hf, truthy, hne]
  · intro hfwd ip hip hne
    have hf : truthy r.xForwardedFor = false := by
      rcases hfwd with h | h <;> simp [h, truthy]
    rw [hf]
    simp [hip, truthy, hne]
  · intro hfwd hrip
    have hf : truthy r.xForwardedFor = false := by
      rcases hfwd with h | h <;> simp [h, truthy]
    have hr : truthy r.xRealIp = false := by
      rcases hrip with h | h <;> simp [h, truthy]
    simp [hf, hr]

/-- Witness for the amended C7: a forwarded chain with spaces and two
addresses resolves to its first token, trimmed. -/
theorem c7_amended_witness :
    (" 1.2.3.4 , 5.6.7.8" : String) ≠ "" ∧
    getClientIp (ReqHeaders.mk (some " 1.2.3.4 , 5.6.7.8") none) =
      firstTokenTrimmed " 1.2.3.4 , 5.6.7.8" ∧
    firstTokenTrimmed " 1.2.3.4 , 5.6.7.8" = "1.2.3.4" :=
  ⟨by decide,
    (c7_amended_resolver (ReqHeaders.mk (some " 1.2.3.4 , 5.6.7.8") none)).1
      " 1.2.3.4 , 5.6.7.8" rfl (by decide),
    by decide⟩

/-- The in-memory parameters of the auth policy in local mode:
`createRateLimiter(5, "15 m")` falls back to
`new InMemoryRateLimiter(5, windowMs("15 m"))`. -/
def authLocal : InMemoryRateLimiter := ⟨5, (localWindowMs "15 m").getD 0⟩

/-- The in-memory parameters of the profile-update policy in local
mode: `createRateLimiter(10, "1 m")`. -/
def profileLocal : InMemoryRateLimiter := ⟨10, (localWindowMs "1 m").getD 0⟩

/-- The in-memory parameters of the password-reset policy in local
mode: `createRateLimiter(3, "1 h")`. -/
def passwordResetLocal : InMemoryRateLimiter := ⟨3, (localWindowMs "1 h").getD 0⟩

/-- The joint state of the three module-level policy instances: each
`InMemoryRateLimiter` object owns its own `requests` map. -/
structure PolicyStores where
  authStore : Store
  profileStore : Store
  passwordResetStore : Store

/-- An evaluation against the auth policy touches only its own map. -/
def evalAuth (σ : PolicyStores) (now : Int) (id : String) : Decision × PolicyStores :=
  let r := authLocal.limit σ.authStore now id
  (r.1, ⟨r.2, σ.profileStore, σ.passwordResetStore⟩)

/-- An evaluation against the profile policy touches only its own map. -/
def evalProfile (σ : PolicyStores) (now : Int) (id : String) : Decision × PolicyStores :=
  let r := profileLocal.limit σ.profileStore now id
  (r.1, ⟨σ.authStore, r.2, σ.passwordResetStore⟩)

/-- An evaluation against the password-reset policy touches only its
own map. -/
def evalPasswordReset (σ : PolicyStores) (now : Int) (id : String) : Decision × PolicyStores :=
  let r := passwordResetLocal.limit σ.passwordResetStore now id
  (r.1, ⟨σ.authStore, σ.profileStore, r.2⟩)

lemma limit_decision_congr (rl : InMemoryRateLimiter) (s s2 : Store)
    (now : Int) (id : String) (h : s id = s2 id) :
    (rl.limit s now id).1 = (rl.limit s2 now id).1 := by
  unfold InMemoryRateLimiter.limit
  rw [h]
  by_cases hc : rl.maxRequests ≤
      ((s2 id).filter (fun time => decide (now - rl.windowMs < time))).length
  · simp only [hc, if_true]
  · simp only [hc, if_false]

/-- C8: evaluating identifier A never changes the stored sequence of a
distinct identifier B (so a later decision for B is the same as if A
had never been evaluated, throttled or not), and each of the three
module-level policy instances owns its own map: an evaluation against
one policy leaves the other two policies' maps untouched. -/
theorem c8_identifier_and_policy_isolation (rl : InMemoryRateLimiter) (s : Store)
    (nowA nowB : Int) (idA idB : String) (hne : idA ≠ idB) :
    ((rl.limit s nowA idA).2 idB = s idB) ∧
    ((rl.limit ((rl.limit s nowA idA).2) nowB idB).1 = (rl.limit s nowB idB).1) ∧
    (∀ (σ : PolicyStores) (now : Int) (id : String),
      (evalAuth σ now id).2.profileStore = σ.profileStore ∧
      (evalAuth σ now id).2.passwordResetStore = σ.passwordResetStore ∧
      (evalProfile σ now id).2.authStore = σ.authStore ∧
      (evalProfile σ now id).2.passwordResetStore = σ.passwordResetStore ∧
      (evalPasswordReset σ now id).2.authStore = σ.authStore ∧
      (evalPasswordReset σ now id).2.profileStore = σ.profileStore) := by
  have hframe : (rl.limit s nowA idA).2 idB = s idB := by
    unfold InMemoryRateLimiter.limit
    by_cases hc : rl.maxRequests ≤
        ((s idA).filter (fun time => decide (nowA - rl.windowMs < time))).length
    · simp only [hc, if_true]
    · simp only [hc, if_false]
      simp [Ne.symm hne]
  exact ⟨hframe, limit_decision_congr rl _ s nowB idB hframe,
    fun σ now id => ⟨rfl, rfl, rfl, rfl, rfl, rfl⟩⟩

/-- Witness for C8 at distinct identifiers "a" and "b". -/
theorem c8_witness :
    ("a" ≠ "b") ∧
    ((InMemoryRateLimiter.mk 2 10).limit emptyStore 0 "a").2 "b" = emptyStore "b" :=
  ⟨by decide,
    (c8_identifier_and_policy_isolation (InMemoryRateLimiter.mk 2 10) emptyStore 0 0
      "a" "b" (by decide)).1⟩
